import Mathlib

/-!
Verification model of the CTFN-Studio backend music service
(src/backend/app/services/music_service.py together with the status enum of
src/backend/app/models.py).

The Python service is embedded shallowly:

* `JobStatus` mirrors the persisted status enum of models.py.
* `EventManager` (subscribe / publish / shutdown over asyncio.Queue channels)
  is modelled by `Channel`, `subscribe`, `offer`, `publish` and
  `shutdown_broadcast`.  An asyncio.Queue with maxsize m is full iff
  0 < m and m <= number of buffered items, and a `put_nowait` wrapped in
  try/except QueueFull is the total function `offer`.
* `MusicService.generate_task`, `MusicService.cancel_job`, the asyncio.Lock
  `gpu_lock`, the display list `job_queue` and the `active_jobs` dictionary
  are modelled as a small-step transition system `Step` over
  `SchedulerState`.  Each step corresponds to one of the atomic blocks of
  the coroutine between await points (asyncio is cooperatively scheduled,
  so code between awaits runs without interleaving); the blocking
  generation call runs in an executor and is modelled by the separate
  `engineDoneStep` / `progressStep` transitions with a nondeterministic
  outcome.  The persistence store holds the Job records; per the
  collaborator contract its reads and writes succeed, but a record may be
  deleted concurrently by an external actor at any time
  (`deleteRecordStep`).  asyncio.Lock wakes its waiters in FIFO order and
  a fresh acquire cannot overtake parked waiters, which `releaseLock`
  models by handing the lock to the first waiter.
-/

namespace CTFN

/-- Opaque job identifier.  The Python code uses string UUIDs; the claims
only need decidable identity, so identifiers are modelled as naturals. -/
abbrev JobId := Nat

/-- The JobStatus enum of models.py. -/
inductive JobStatus
  | queued
  | processing
  | completed
  | failed
deriving DecidableEq, Repr

/-! ## EventManager (music_service.py lines 408 to 446) -/

/-- A subscriber channel: an asyncio.Queue created by EventManager.subscribe.
maxsize 0 means the queue is unlimited (the asyncio default). -/
structure Channel where
  maxsize : Nat
  buffer : List String
deriving DecidableEq, Repr

/-- asyncio.Queue.full(): true iff maxsize is positive and at least maxsize
items are buffered. -/
def Channel.full (c : Channel) : Bool :=
  decide (0 < c.maxsize) && decide (c.maxsize ≤ c.buffer.length)

/-- The subscriber list held by the EventManager singleton. -/
structure EventManagerState where
  subscribers : List Channel
deriving DecidableEq, Repr

/-- EventManager.subscribe: q = asyncio.Queue() (hence maxsize 0), appended to
the subscriber list and returned to the caller. -/
def subscribe (m : EventManagerState) : EventManagerState × Channel :=
  ({ subscribers := m.subscribers ++ [{ maxsize := 0, buffer := [] }] },
   { maxsize := 0, buffer := [] })

/-- The per-channel body of publish: try q.put_nowait(msg) except QueueFull
pass.  A full channel drops the message, every other channel appends it. -/
def offer (msg : String) (c : Channel) : Channel :=
  if c.full then c else { c with buffer := c.buffer ++ [msg] }

/-- The server-sent-event serialization performed by EventManager.publish.
The json payload is treated as an opaque, already serialized string. -/
def serialize_msg (event_type data_json : String) : String :=
  "event: " ++ event_type ++ "\ndata: " ++ data_json ++ "\n\n"

/-- EventManager.publish: serialize once and offer the message to every
currently registered channel with a non-blocking send. -/
def publish (event_type data_json : String) (m : EventManagerState) :
    EventManagerState :=
  { subscribers := m.subscribers.map (offer (serialize_msg event_type data_json)) }

/-- EventManager.shutdown: broadcast the fixed shutdown message to every
subscriber, dropping it for full channels exactly like publish. -/
def shutdown_broadcast (m : EventManagerState) : EventManagerState :=
  { subscribers := m.subscribers.map (offer "event: shutdown\ndata: \x7b\x7d\n\n") }

/-! ## Reference-audio conditioning window (generate_task lines 256 to 282) -/

/-- The fixed trained reference window of 10 seconds. -/
def max_segment_sec : ℚ := 10

/-- The resolved conditioning window: style_influence percent of the fixed
window, then bounded above by the actual audio duration, then bounded below
by the one second floor.  Rational arithmetic stands in for Python floats;
the quantities involved are exact. -/
def muq_segment_sec (style_influence audio_duration_sec : ℚ) : ℚ :=
  max 1 (min (style_influence / 100 * max_segment_sec) audio_duration_sec)

/-! ## Cancellation registry (active_jobs dictionary) -/

/-- Registration of a cancellation token for a job, as performed by
generate_task line 160: a plain dictionary assignment
self.active_jobs[job_id] = threading.Event().  The stored Bool is whether
the event has been set; a fresh event is unset. -/
def register_token (m : JobId → Option Bool) (job_id : JobId) :
    JobId → Option Bool :=
  Function.update m job_id (some false)

/-! ## Device placement (MusicService._load_pipeline_multi_gpu) -/

/-- A torch device as passed to HeartMuLaGenPipeline.from_pretrained. -/
inductive TorchDevice
  | cpu
  | cuda
  | cudaIdx (i : Nat)
deriving DecidableEq, Repr

/-- The placement decision _load_pipeline_multi_gpu derives from the GPU
memory list: mode string, mula device, codec device, and the lazy_load
argument (none when the call site omits it). -/
structure PipelinePlacement where
  gpu_mode : String
  device : TorchDevice
  codec_device : TorchDevice
  lazy_load : Option Bool
deriving DecidableEq, Repr

/-- One pass of the Python max() loop over values paired with their indices:
keep the incumbent pair unless the candidate value is strictly greater. -/
def scan_max : List ℚ → ℚ → Nat → Nat → ℚ × Nat
  | [], bv, bi, _ => (bv, bi)
  | x :: xs, bv, bi, i =>
      if bv < x then scan_max xs x i (i + 1) else scan_max xs bv bi (i + 1)

/-- One pass of the Python min() loop: keep the incumbent pair unless the
candidate value is strictly smaller. -/
def scan_min : List ℚ → ℚ → Nat → Nat → ℚ × Nat
  | [], bv, bi, _ => (bv, bi)
  | x :: xs, bv, bi, i =>
      if x < bv then scan_min xs x i (i + 1) else scan_min xs bv bi (i + 1)

/-- max(gpu_memories, key=gpu_memories.get): the first index holding the
greatest value (Python max keeps the earliest maximal item). -/
def py_max_key (l : List ℚ) : Nat :=
  match l with
  | [] => 0
  | x :: xs => (scan_max xs x 0 1).2

/-- min(gpu_memories, key=gpu_memories.get): the first index holding the
least value. -/
def py_min_key (l : List ℚ) : Nat :=
  match l with
  | [] => 0
  | x :: xs => (scan_min xs x 0 1).2

/-- The pure placement decision of MusicService._load_pipeline_multi_gpu as
a function of the per-GPU memory capacities (list index = CUDA device id).
Fewer than two GPUs: single mode, codec kept on the CPU, lazy loading
requested.  Otherwise: HeartMuLa on the GPU of greatest memory, HeartCodec
on the GPU of least memory, lazy_load not passed. -/
def load_pipeline_multi_gpu (gpu_memories : List ℚ) : PipelinePlacement :=
  if gpu_memories.length < 2 then
    { gpu_mode := "single", device := TorchDevice.cuda,
      codec_device := TorchDevice.cpu, lazy_load := some true }
  else
    { gpu_mode := "multi",
      device := TorchDevice.cudaIdx (py_max_key gpu_memories),
      codec_device := TorchDevice.cudaIdx (py_min_key gpu_memories),
      lazy_load := none }

/-! ## The job scheduler (MusicService.generate_task and cancel_job)

The transition system below follows the coroutine literally.  Atomic blocks
between await points:

* submit: lines 119 to 127 — append to job_queue, publish job_queued,
  rebroadcast positions, and start acquiring gpu_lock (taken immediately
  when free, otherwise the task parks in FIFO order).
* admission: lines 128 to 336 — once the lock is granted the task removes
  itself from job_queue and rebroadcasts, re-fetches the Job record
  (aborting with a plain return when it was deleted), persists
  status = PROCESSING, registers its cancellation token in active_jobs,
  publishes the processing events, and hands the blocking generation call
  to the executor.
* engineDone: the executor call returns, either normally or by raising
  (an abort requested through the cancellation token surfaces as a raise);
  the outcome is nondeterministic because the engine is opaque.
* finishOk: lines 338 to 358 plus the finally block — re-fetch (discarding
  the result with a plain return when the record was deleted), persist
  status = COMPLETED, publish the terminal events, delete the token, and
  release the lock on exit of the async with.
* finishErr: lines 360 to 368 plus the finally block — the failure path
  re-fetches with .one(), which raises NoResultFound when the record was
  deleted; that exception escapes the coroutine (outcome crashedNoRecord)
  but still passes through the finally block and releases the lock.
  Otherwise status = FAILED is persisted and job_update failed published.
* progress: the pipeline callback publishing job_progress while generating.
* cancel: MusicService.cancel_job, lines 387 to 399.
* deleteRecord: an external actor deleting the persisted record.

Store writes themselves succeed (the persistence collaborator contract);
concurrent deletion of a record is the external mutation the design
tolerates.  Ghost fields submit_order, acquire_order and writes_by record
the submission order, the gate acquisition order and the statuses persisted
for each id; they are write-only logs and influence no transition. -/

/-- Events published through the event_manager singleton by the scheduler,
identified by event type and payload fields relevant to the claims. -/
inductive Event
  | job_queued (job_id : JobId) (position total : Nat)
  | job_queue_pos (job_id : JobId) (position total : Nat)
  | job_update_processing (job_id : JobId)
  | job_update_completed (job_id : JobId)
  | job_update_failed (job_id : JobId)
  | job_progress (job_id : JobId) (progress : Nat)
deriving DecidableEq, Repr

/-- How one generate_task invocation ended. -/
inductive Outcome
  | deletedBeforeProcessing
  | completed
  | failed
  | resultDiscarded
  | crashedNoRecord
deriving DecidableEq, Repr

/-- Program counter of one generate_task invocation, one value per atomic
block the coroutine can be parked before. -/
inductive Phase
  | idle
  | waiting
  | admitted
  | generating
  | finishingOk
  | finishingErr
  | done (o : Outcome)
deriving DecidableEq, Repr

/-- Phases during which the task owns gpu_lock. -/
def Phase.isHolding : Phase → Bool
  | .admitted | .generating | .finishingOk | .finishingErr => true
  | _ => false

/-- Phases between the PROCESSING write and the terminal handling. -/
def Phase.isBusy : Phase → Bool
  | .generating | .finishingOk | .finishingErr => true
  | _ => false

/-- The shared state of the MusicService singleton, the persistence store
and every submitted task. -/
structure SchedulerState where
  gpu_lock_holder : Option JobId
  gpu_lock_waiters : List JobId
  job_queue : List JobId
  active_jobs : JobId → Option Bool
  store : JobId → Option JobStatus
  phase : JobId → Phase
  events : List Event
  submit_order : List JobId
  acquire_order : List JobId
  writes_by : JobId → List JobStatus

/-- get_queue_position: 1-based index in job_queue, 0 when absent. -/
def get_queue_position (q : List JobId) (job_id : JobId) : Nat :=
  if job_id ∈ q then q.indexOf job_id + 1 else 0

/-- _broadcast_queue_update: one job_queue event per queued job with its
current 1-based position and the total count. -/
def broadcast_queue_update (q : List JobId) : List Event :=
  q.enum.map fun p => Event.job_queue_pos p.2 (p.1 + 1) q.length

/-- Exit of the async with gpu_lock block: asyncio.Lock.release wakes the
first parked waiter, which then owns the lock and will run its admission
block; a fresh acquire cannot barge past parked waiters. -/
def releaseLock (s : SchedulerState) : SchedulerState :=
  match s.gpu_lock_waiters with
  | [] => { s with gpu_lock_holder := none }
  | w :: ws =>
      { s with gpu_lock_holder := some w, gpu_lock_waiters := ws,
               phase := Function.update s.phase w Phase.admitted,
               acquire_order := s.acquire_order ++ [w] }

/-- Lines 119 to 127: append to job_queue, publish job_queued at the
computed position, rebroadcast all positions, then acquire gpu_lock:
taken at once when free with no parked waiters, otherwise park FIFO. -/
def submitStep (s : SchedulerState) (job_id : JobId) : SchedulerState :=
  if s.gpu_lock_holder = none ∧ s.gpu_lock_waiters = [] then
    { s with
      job_queue := s.job_queue ++ [job_id],
      events := s.events
        ++ [Event.job_queued job_id
              (get_queue_position (s.job_queue ++ [job_id]) job_id)
              (s.job_queue ++ [job_id]).length]
        ++ broadcast_queue_update (s.job_queue ++ [job_id]),
      submit_order := s.submit_order ++ [job_id],
      gpu_lock_holder := some job_id,
      phase := Function.update s.phase job_id Phase.admitted,
      acquire_order := s.acquire_order ++ [job_id] }
  else
    { s with
      job_queue := s.job_queue ++ [job_id],
      events := s.events
        ++ [Event.job_queued job_id
              (get_queue_position (s.job_queue ++ [job_id]) job_id)
              (s.job_queue ++ [job_id]).length]
        ++ broadcast_queue_update (s.job_queue ++ [job_id]),
      submit_order := s.submit_order ++ [job_id],
      gpu_lock_waiters := s.gpu_lock_waiters ++ [job_id],
      phase := Function.update s.phase job_id Phase.waiting }

/-- Lines 128 to 131: holding the lock, remove the own id from job_queue
when still present and rebroadcast the remaining positions. -/
def dequeueSelf (s : SchedulerState) (job_id : JobId) : SchedulerState :=
  if job_id ∈ s.job_queue then
    { s with job_queue := s.job_queue.erase job_id,
             events := s.events
               ++ broadcast_queue_update (s.job_queue.erase job_id) }
  else s

/-- Lines 128 to 336: the admission block.  Re-fetch finds the record
deleted: warn and return, releasing the lock (outcome
deletedBeforeProcessing).  Otherwise persist PROCESSING, register the
cancellation token, publish the processing events and start generating. -/
def admissionStep (s : SchedulerState) (job_id : JobId) : SchedulerState :=
  match s.store job_id with
  | none =>
      releaseLock
        { dequeueSelf s job_id with
          phase := Function.update s.phase job_id
            (Phase.done Outcome.deletedBeforeProcessing) }
  | some _ =>
      { dequeueSelf s job_id with
        store := Function.update s.store job_id (some JobStatus.processing),
        writes_by := Function.update s.writes_by job_id
          (s.writes_by job_id ++ [JobStatus.processing]),
        active_jobs := register_token s.active_jobs job_id,
        events := (dequeueSelf s job_id).events
          ++ [Event.job_update_processing job_id, Event.job_progress job_id 0],
        phase := Function.update s.phase job_id Phase.generating }

/-- The executor finishes the blocking generation call; ok is whether it
returned normally (false covers engine failures and token-requested
aborts, which surface as exceptions). -/
def engineDoneStep (s : SchedulerState) (job_id : JobId) (ok : Bool) :
    SchedulerState :=
  { s with phase := Function.update s.phase job_id (if ok then Phase.finishingOk else Phase.finishingErr) }

/-- The pipeline progress callback publishing job_progress mid-generation. -/
def progressStep (s : SchedulerState) (job_id : JobId) (p : Nat) :
    SchedulerState :=
  { s with events := s.events ++ [Event.job_progress job_id p] }

/-- Lines 338 to 358 plus finally: the completion path.  A deleted record
discards the result with a plain return; otherwise COMPLETED is persisted
and the terminal events published.  Both branches delete the cancellation
token and release the lock. -/
def finishOkStep (s : SchedulerState) (job_id : JobId) : SchedulerState :=
  match s.store job_id with
  | none =>
      releaseLock
        { s with active_jobs := Function.update s.active_jobs job_id none,
                 phase := Function.update s.phase job_id
                   (Phase.done Outcome.resultDiscarded) }
  | some _ =>
      releaseLock
        { s with
          store := Function.update s.store job_id (some JobStatus.completed),
          writes_by := Function.update s.writes_by job_id
            (s.writes_by job_id ++ [JobStatus.completed]),
          events := s.events
            ++ [Event.job_update_completed job_id, Event.job_progress job_id 100],
          active_jobs := Function.update s.active_jobs job_id none,
          phase := Function.update s.phase job_id (Phase.done Outcome.completed) }

/-- Lines 360 to 368 plus finally: the failure path.  The re-fetch uses
.one(), so a deleted record raises NoResultFound, which escapes the
coroutine after the finally block ran (outcome crashedNoRecord): no store
write and no event, but the token is deleted and the lock released.
Otherwise FAILED is persisted and job_update failed published. -/
def finishErrStep (s : SchedulerState) (job_id : JobId) : SchedulerState :=
  match s.store job_id with
  | none =>
      releaseLock
        { s with active_jobs := Function.update s.active_jobs job_id none,
                 phase := Function.update s.phase job_id
                   (Phase.done Outcome.crashedNoRecord) }
  | some _ =>
      releaseLock
        { s with
          store := Function.update s.store job_id (some JobStatus.failed),
          writes_by := Function.update s.writes_by job_id
            (s.writes_by job_id ++ [JobStatus.failed]),
          events := s.events ++ [Event.job_update_failed job_id],
          active_jobs := Function.update s.active_jobs job_id none,
          phase := Function.update s.phase job_id (Phase.done Outcome.failed) }

/-- MusicService.cancel_job, lines 387 to 399: remove a waiting id from
job_queue and rebroadcast (returning True), otherwise set the cancellation
event of an active id (returning True), otherwise return False. -/
def cancel_job (s : SchedulerState) (job_id : JobId) : SchedulerState × Bool :=
  if job_id ∈ s.job_queue then
    ({ s with job_queue := s.job_queue.erase job_id,
              events := s.events
                ++ broadcast_queue_update (s.job_queue.erase job_id) }, true)
  else if (s.active_jobs job_id).isSome then
    ({ s with active_jobs := Function.update s.active_jobs job_id (some true) },
     true)
  else (s, false)

/-- An external actor deletes the persisted Job record. -/
def deleteRecordStep (s : SchedulerState) (job_id : JobId) : SchedulerState :=
  { s with store := Function.update s.store job_id none }

/-- One interleaved step of the system: a scheduler-coroutine block, the
executor finishing, a progress callback, a cancel request or an external
record deletion. -/
inductive Step : SchedulerState → SchedulerState → Prop
  | submit (s : SchedulerState) (job_id : JobId)
      (h : s.phase job_id = Phase.idle) : Step s (submitStep s job_id)
  | admission (s : SchedulerState) (job_id : JobId)
      (hl : s.gpu_lock_holder = some job_id)
      (hp : s.phase job_id = Phase.admitted) : Step s (admissionStep s job_id)
  | engineDone (s : SchedulerState) (job_id : JobId) (ok : Bool)
      (hp : s.phase job_id = Phase.generating) :
      Step s (engineDoneStep s job_id ok)
  | progress (s : SchedulerState) (job_id : JobId) (p : Nat)
      (hp : s.phase job_id = Phase.generating) : Step s (progressStep s job_id p)
  | finishOk (s : SchedulerState) (job_id : JobId)
      (hl : s.gpu_lock_holder = some job_id)
      (hp : s.phase job_id = Phase.finishingOk) : Step s (finishOkStep s job_id)
  | finishErr (s : SchedulerState) (job_id : JobId)
      (hl : s.gpu_lock_holder = some job_id)
      (hp : s.phase job_id = Phase.finishingErr) : Step s (finishErrStep s job_id)
  | cancel (s : SchedulerState) (job_id : JobId) : Step s (cancel_job s job_id).1
  | deleteRecord (s : SchedulerState) (job_id : JobId) :
      Step s (deleteRecordStep s job_id)

/-- The system state before any task ran: lock free, queues empty, records
as created by the submit endpoint (never PROCESSING). -/
def initState (store0 : JobId → Option JobStatus) : SchedulerState where
  gpu_lock_holder := none
  gpu_lock_waiters := []
  job_queue := []
  active_jobs := fun _ => none
  store := store0
  phase := fun _ => Phase.idle
  events := []
  submit_order := []
  acquire_order := []
  writes_by := fun _ => []

/-- Reachability under interleaved steps. -/
def Reachable (s t : SchedulerState) : Prop := Relation.ReflTransGen Step s t

/-- The statuses a task has persisted for its record by each phase. -/
def expectedWrites : Phase → List JobStatus
  | .idle | .waiting | .admitted => []
  | .generating | .finishingOk | .finishingErr => [JobStatus.processing]
  | .done .deletedBeforeProcessing => []
  | .done .completed => [JobStatus.processing, JobStatus.completed]
  | .done .failed => [JobStatus.processing, JobStatus.failed]
  | .done .resultDiscarded => [JobStatus.processing]
  | .done .crashedNoRecord => [JobStatus.processing]

/-- No terminal (completed or failed) event was ever published for the id. -/
def no_terminal_event (evs : List Event) (job_id : JobId) : Prop :=
  Event.job_update_completed job_id ∉ evs ∧ Event.job_update_failed job_id ∉ evs

/-- a occurs strictly before b in the list. -/
def before_in (l : List JobId) (a b : JobId) : Prop :=
  ∃ i : Fin l.length, ∃ j : Fin l.length, i.val < j.val ∧ l.get i = a ∧ l.get j = b

instance (l : List JobId) (a b : JobId) : Decidable (before_in l a b) := by
  unfold before_in
  infer_instance

/-- The inductive invariant of the scheduler, proved to hold in every
reachable state. -/
structure Inv (s : SchedulerState) : Prop where
  procBusy : ∀ id, s.store id = some JobStatus.processing →
    (s.phase id).isBusy = true
  holdGate : ∀ id, (s.phase id).isHolding = true → s.gpu_lock_holder = some id
  holderHolding : ∀ id, s.gpu_lock_holder = some id →
    (s.phase id).isHolding = true
  waitersWaiting : ∀ id, id ∈ s.gpu_lock_waiters → s.phase id = Phase.waiting
  waitersNodup : s.gpu_lock_waiters.Nodup
  orderEq : s.submit_order = s.acquire_order ++ s.gpu_lock_waiters
  submitNodup : s.submit_order.Nodup
  idleNew : ∀ id, s.phase id = Phase.idle → id ∉ s.submit_order
  doneNoToken : ∀ id o, s.phase id = Phase.done o → s.active_jobs id = none
  activeBusy : ∀ id, (s.active_jobs id).isSome = true → (s.phase id).isBusy = true
  writesOk : ∀ id, s.writes_by id = expectedWrites (s.phase id)
  completedEvent : ∀ id, Event.job_update_completed id ∈ s.events →
    s.phase id = Phase.done Outcome.completed
  failedEvent : ∀ id, Event.job_update_failed id ∈ s.events →
    s.phase id = Phase.done Outcome.failed

/-- State of the releasing task just before releaseLock runs: nobody holds
a lock-owning phase any more and no record is left PROCESSING. -/
structure PreRelease (s : SchedulerState) : Prop where
  noHolding : ∀ id, (s.phase id).isHolding = false
  noProcessing : ∀ id, s.store id ≠ some JobStatus.processing
  waitersWaiting : ∀ id, id ∈ s.gpu_lock_waiters → s.phase id = Phase.waiting
  waitersNodup : s.gpu_lock_waiters.Nodup
  orderEq : s.submit_order = s.acquire_order ++ s.gpu_lock_waiters
  submitNodup : s.submit_order.Nodup
  idleNew : ∀ id, s.phase id = Phase.idle → id ∉ s.submit_order
  doneNoToken : ∀ id o, s.phase id = Phase.done o → s.active_jobs id = none
  activeBusy : ∀ id, (s.active_jobs id).isSome = true → (s.phase id).isBusy = true
  writesOk : ∀ id, s.writes_by id = expectedWrites (s.phase id)
  completedEvent : ∀ id, Event.job_update_completed id ∈ s.events →
    s.phase id = Phase.done Outcome.completed
  failedEvent : ∀ id, Event.job_update_failed id ∈ s.events →
    s.phase id = Phase.done Outcome.failed

/-! ## Concrete executions used as witnesses

All records exist with status QUEUED before the runs start (the submit
endpoint creates the record before spawning generate_task). -/

/-- Initial store: every record present with status QUEUED. -/
def allQueuedStore : JobId → Option JobStatus := fun _ => some JobStatus.queued

/-- Initial state of the concrete runs. -/
def t0 : SchedulerState := initState allQueuedStore

/-- Job 1 submits; the lock is free, so it is taken immediately. -/
def t1 : SchedulerState := submitStep t0 1

/-- Job 1 runs its admission block: record present, PROCESSING persisted. -/
def t2 : SchedulerState := admissionStep t1 1

/-- Job 2 submits while job 1 generates; job 2 parks on the lock. -/
def t3 : SchedulerState := submitStep t2 2

/-- cancel_job 2 removes the waiting job 2 from the display queue. -/
def t4 : SchedulerState := (cancel_job t3 2).1

/-- The engine finishes job 1 normally. -/
def t5 : SchedulerState := engineDoneStep t4 1 true

/-- Job 1 completes and releases the lock, which is handed to job 2. -/
def t6 : SchedulerState := finishOkStep t5 1

/-- Job 2, although cancelled while queued, runs its admission block and
its record is set to PROCESSING. -/
def t7 : SchedulerState := admissionStep t6 2

/-- Record of job 1 deleted while job 1 still waits for admission. -/
def u2 : SchedulerState := deleteRecordStep t1 1

/-- Job 1 finds its record deleted before PROCESSING and aborts silently. -/
def u3 : SchedulerState := admissionStep u2 1

/-- Record of job 1 deleted while job 1 is generating. -/
def v3 : SchedulerState := deleteRecordStep t2 1

/-- The engine raises for job 1 (failure or cooperative abort). -/
def v4 : SchedulerState := engineDoneStep v3 1 false

/-- The failure path re-fetches with .one() and the record is gone: the
NoResultFound exception escapes the coroutine. -/
def v5 : SchedulerState := finishErrStep v4 1

/-- Channel already registered before the C6 witness publish: maxsize 1 and
already holding one message, hence saturated. -/
def ch6full : Channel := { maxsize := 1, buffer := ["old"] }

/-- A second, unbounded channel that is not saturated. -/
def ch6free : Channel := { maxsize := 0, buffer := [] }

/-- Event manager with one saturated and one free subscriber. -/
def em6 : EventManagerState := { subscribers := [ch6full, ch6free] }

/-- An active_jobs dictionary that already registered a token for job 1,
with the token already set. -/
def preRegistered : JobId → Option Bool :=
  Function.update (fun _ => none) 1 (some true)

/-! ## Helper lemmas -/

theorem isBusy_isHolding {p : Phase} (h : p.isBusy = true) : p.isHolding = true := by
  cases p <;> simp_all [Phase.isBusy, Phase.isHolding]

theorem isHolding_ne_done {p : Phase} (h : p.isHolding = true) (o : Outcome) :
    p ≠ Phase.done o := by
  cases p <;> simp_all [Phase.isHolding]

theorem completed_not_mem_broadcast (q : List JobId) (id : JobId) :
    Event.job_update_completed id ∉ broadcast_queue_update q := by
  simp [broadcast_queue_update]

theorem failed_not_mem_broadcast (q : List JobId) (id : JobId) :
    Event.job_update_failed id ∉ broadcast_queue_update q := by
  simp [broadcast_queue_update]

theorem dequeueSelf_phase (s : SchedulerState) (id : JobId) :
    (dequeueSelf s id).phase = s.phase := by
  unfold dequeueSelf; split <;> rfl

theorem dequeueSelf_store (s : SchedulerState) (id : JobId) :
    (dequeueSelf s id).store = s.store := by
  unfold dequeueSelf; split <;> rfl

theorem dequeueSelf_active (s : SchedulerState) (id : JobId) :
    (dequeueSelf s id).active_jobs = s.active_jobs := by
  unfold dequeueSelf; split <;> rfl

theorem dequeueSelf_holder (s : SchedulerState) (id : JobId) :
    (dequeueSelf s id).gpu_lock_holder = s.gpu_lock_holder := by
  unfold dequeueSelf; split <;> rfl

theorem dequeueSelf_waiters (s : SchedulerState) (id : JobId) :
    (dequeueSelf s id).gpu_lock_waiters = s.gpu_lock_waiters := by
  unfold dequeueSelf; split <;> rfl

theorem dequeueSelf_submit_order (s : SchedulerState) (id : JobId) :
    (dequeueSelf s id).submit_order = s.submit_order := by
  unfold dequeueSelf; split <;> rfl

theorem dequeueSelf_acquire_order (s : SchedulerState) (id : JobId) :
    (dequeueSelf s id).acquire_order = s.acquire_order := by
  unfold dequeueSelf; split <;> rfl

theorem dequeueSelf_writes (s : SchedulerState) (id : JobId) :
    (dequeueSelf s id).writes_by = s.writes_by := by
  unfold dequeueSelf; split <;> rfl

theorem mem_events_dequeueSelf {s : SchedulerState} {id : JobId} {e : Event}
    (he : e ∈ (dequeueSelf s id).events)
    (hnb : ∀ q, e ∉ broadcast_queue_update q) : e ∈ s.events := by
  unfold dequeueSelf at he
  split at he
  · rcases List.mem_append.mp he with h | h
    · exact h
    · exact absurd h (hnb _)
  · exact he

theorem inv_release {s : SchedulerState} (h : PreRelease s) : Inv (releaseLock s) := by
  obtain ⟨hnh, hnp, hww, hwn, hoe, hsn, hin, hnt, hab, hwo, hce, hfe⟩ := h
  unfold releaseLock
  cases hw : s.gpu_lock_waiters with
  | nil =>
      refine ⟨?_, ?_, ?_, ?_, ?_, ?_, ?_, ?_, ?_, ?_, ?_, ?_, ?_⟩
      · exact fun id hid => absurd hid (hnp id)
      · exact fun id hid => by simp [hnh id] at hid
      · intro id hid; simp at hid
      · intro id hid; simp at hid
      · simp
      · simpa [hw] using hoe
      · exact hsn
      · exact hin
      · exact hnt
      · exact hab
      · exact hwo
      · exact hce
      · exact hfe
  | cons w ws =>
      have hwWait : s.phase w = Phase.waiting := hww w (by rw [hw]; exact List.mem_cons_self w ws)
      have hwsNodup : ws.Nodup := by rw [hw] at hwn; exact (List.nodup_cons.mp hwn).2
      have hwNotWs : w ∉ ws := by rw [hw] at hwn; exact (List.nodup_cons.mp hwn).1
      dsimp only
      refine ⟨?_, ?_, ?_, ?_, ?_, ?_, ?_, ?_, ?_, ?_, ?_, ?_, ?_⟩
      · exact fun id hid => absurd hid (hnp id)
      · intro id hid
        simp only [Function.update_apply] at hid
        by_cases hc : id = w
        · simp [hc]
        · simp [hc] at hid; simp [hnh id] at hid
      · intro id hid
        simp only [Option.some.injEq] at hid
        subst hid
        simp [Function.update_apply, Phase.isHolding]
      · intro id hid
        dsimp only at hid ⊢
        have hidMem : id ∈ s.gpu_lock_waiters := by
          rw [hw]; exact List.mem_cons_of_mem _ hid
        have hne : id ≠ w := fun hc => hwNotWs (hc ▸ hid)
        rw [Function.update_apply, if_neg hne]
        exact hww id hidMem
      · exact hwsNodup
      · rw [hw] at hoe; simp [hoe, List.append_assoc]
      · exact hsn
      · intro id hid
        by_cases hc : id = w
        · subst hc; simp [Function.update_apply] at hid
        · simp only [Function.update_apply, if_neg hc] at hid
          exact hin id hid
      · intro id o hid
        by_cases hc : id = w
        · subst hc; simp [Function.update_apply] at hid
        · simp only [Function.update_apply, if_neg hc] at hid
          exact hnt id o hid
      · intro id hid
        have hb := hab id hid
        by_cases hc : id = w
        · subst hc; simp [hwWait, Phase.isBusy] at hb
        · simpa [Function.update_apply, if_neg hc] using hb
      · intro id
        dsimp only
        by_cases hc : id = w
        · subst hc
          simp only [Function.update_apply, if_pos rfl]
          rw [hwo id, hwWait]
          simp [expectedWrites]
        · simp [Function.update_apply, if_neg hc, hwo id]
      · intro id hid
        have := hce id hid
        by_cases hc : id = w
        · subst hc; rw [hwWait] at this; cases this
        · simpa [Function.update_apply, if_neg hc]
      · intro id hid
        have := hfe id hid
        by_cases hc : id = w
        · subst hc; rw [hwWait] at this; cases this
        · simpa [Function.update_apply, if_neg hc]

theorem inv_delete {s : SchedulerState} (h : Inv s) (job_id : JobId) :
    Inv (deleteRecordStep s job_id) := by
  obtain ⟨hpb, hhg, hhh, hww, hwn, hoe, hsn, hin, hnt, hab, hwo, hce, hfe⟩ := h
  refine ⟨?_, hhg, hhh, hww, hwn, hoe, hsn, hin, hnt, hab, hwo, hce, hfe⟩
  intro id hid
  dsimp only [deleteRecordStep] at hid
  rw [Function.update_apply] at hid
  by_cases hc : id = job_id
  · rw [if_pos hc] at hid; cases hid
  · rw [if_neg hc] at hid; exact hpb id hid

theorem inv_progress {s : SchedulerState} (h : Inv s) (job_id : JobId) (p : Nat) :
    Inv (progressStep s job_id p) := by
  obtain ⟨hpb, hhg, hhh, hww, hwn, hoe, hsn, hin, hnt, hab, hwo, hce, hfe⟩ := h
  refine ⟨hpb, hhg, hhh, hww, hwn, hoe, hsn, hin, hnt, hab, hwo, ?_, ?_⟩
  · intro id hid
    dsimp only [progressStep] at hid
    rcases List.mem_append.mp hid with hm | hm
    · exact hce id hm
    · simp at hm
  · intro id hid
    dsimp only [progressStep] at hid
    rcases List.mem_append.mp hid with hm | hm
    · exact hfe id hm
    · simp at hm

theorem inv_engineDone {s : SchedulerState} (h : Inv s) (job_id : JobId) (ok : Bool)
    (hp : s.phase job_id = Phase.generating) : Inv (engineDoneStep s job_id ok) := by
  obtain ⟨hpb, hhg, hhh, hww, hwn, hoe, hsn, hin, hnt, hab, hwo, hce, hfe⟩ := h
  have hbusy : (if ok then Phase.finishingOk else Phase.finishingErr).isBusy = true := by
    cases ok <;> simp [Phase.isBusy]
  have hhold : (if ok then Phase.finishingOk else Phase.finishingErr).isHolding = true := by
    cases ok <;> simp [Phase.isHolding]
  have hndone : ∀ o, (if ok then Phase.finishingOk else Phase.finishingErr) ≠ Phase.done o := by
    intro o; cases ok <;> simp
  have hnidle : (if ok then Phase.finishingOk else Phase.finishingErr) ≠ Phase.idle := by
    cases ok <;> simp
  have hwexp : expectedWrites (if ok then Phase.finishingOk else Phase.finishingErr)
      = [JobStatus.processing] := by
    cases ok <;> simp [expectedWrites]
  refine ⟨?_, ?_, ?_, ?_, hwn, hoe, hsn, ?_, ?_, ?_, ?_, ?_, ?_⟩
  · intro id hid
    dsimp only [engineDoneStep] at hid ⊢
    rw [Function.update_apply]
    by_cases hc : id = job_id
    · rw [if_pos hc]; exact hbusy
    · rw [if_neg hc]; exact hpb id hid
  · intro id hid
    dsimp only [engineDoneStep] at hid ⊢
    rw [Function.update_apply] at hid
    by_cases hc : id = job_id
    · subst hc; exact hhg id (by rw [hp]; rfl)
    · rw [if_neg hc] at hid; exact hhg id hid
  · intro id hid
    dsimp only [engineDoneStep] at hid ⊢
    rw [Function.update_apply]
    by_cases hc : id = job_id
    · rw [if_pos hc]; exact hhold
    · rw [if_neg hc]; exact hhh id hid
  · intro id hid
    dsimp only [engineDoneStep] at hid ⊢
    have hne : id ≠ job_id := by
      intro hc; subst hc
      have := hww id hid; rw [hp] at this; cases this
    rw [Function.update_apply, if_neg hne]
    exact hww id hid
  · intro id hid
    dsimp only [engineDoneStep] at hid ⊢
    rw [Function.update_apply] at hid
    by_cases hc : id = job_id
    · rw [if_pos hc] at hid; exact absurd hid hnidle
    · rw [if_neg hc] at hid; exact hin id hid
  · intro id o hid
    dsimp only [engineDoneStep] at hid ⊢
    rw [Function.update_apply] at hid
    by_cases hc : id = job_id
    · rw [if_pos hc] at hid; exact absurd hid (hndone o)
    · rw [if_neg hc] at hid; exact hnt id o hid
  · intro id hid
    dsimp only [engineDoneStep] at hid ⊢
    rw [Function.update_apply]
    by_cases hc : id = job_id
    · rw [if_pos hc]; exact hbusy
    · rw [if_neg hc]; exact hab id hid
  · intro id
    dsimp only [engineDoneStep]
    rw [Function.update_apply]
    by_cases hc : id = job_id
    · rw [if_pos hc, hwexp, hwo id, hc, hp]; rfl
    · rw [if_neg hc]; exact hwo id
  · intro id hid
    dsimp only [engineDoneStep] at hid ⊢
    have hold := hce id hid
    have hne : id ≠ job_id := by
      intro hc; subst hc; rw [hp] at hold; cases hold
    rw [Function.update_apply, if_neg hne]
    exact hold
  · intro id hid
    dsimp only [engineDoneStep] at hid ⊢
    have hold := hfe id hid
    have hne : id ≠ job_id := by
      intro hc; subst hc; rw [hp] at hold; cases hold
    rw [Function.update_apply, if_neg hne]
    exact hold

theorem inv_cancel {s : SchedulerState} (h : Inv s) (job_id : JobId) :
    Inv (cancel_job s job_id).1 := by
  obtain ⟨hpb, hhg, hhh, hww, hwn, hoe, hsn, hin, hnt, hab, hwo, hce, hfe⟩ := h
  unfold cancel_job
  by_cases h1 : job_id ∈ s.job_queue
  · rw [if_pos h1]
    refine ⟨hpb, hhg, hhh, hww, hwn, hoe, hsn, hin, hnt, hab, hwo, ?_, ?_⟩
    · intro id hid
      dsimp only at hid
      rcases List.mem_append.mp hid with hm | hm
      · exact hce id hm
      · exact absurd hm (completed_not_mem_broadcast _ id)
    · intro id hid
      dsimp only at hid
      rcases List.mem_append.mp hid with hm | hm
      · exact hfe id hm
      · exact absurd hm (failed_not_mem_broadcast _ id)
  · rw [if_neg h1]
    by_cases h2 : (s.active_jobs job_id).isSome = true
    · rw [if_pos h2]
      refine ⟨hpb, hhg, hhh, hww, hwn, hoe, hsn, hin, ?_, ?_, hwo, hce, hfe⟩
      · intro id o hid
        dsimp only at hid ⊢
        have hne : id ≠ job_id := by
          intro hc; subst hc
          have := hab id h2
          rw [hid] at this
          simp [Phase.isBusy] at this
        rw [Function.update_apply, if_neg hne]
        exact hnt id o hid
      · intro id hid
        dsimp only at hid ⊢
        by_cases hc : id = job_id
        · subst hc; exact hab id h2
        · rw [Function.update_apply, if_neg hc] at hid
          exact hab id hid
    · rw [if_neg h2]
      exact ⟨hpb, hhg, hhh, hww, hwn, hoe, hsn, hin, hnt, hab, hwo, hce, hfe⟩

theorem inv_submit {s : SchedulerState} (h : Inv s) (job_id : JobId)
    (hp : s.phase job_id = Phase.idle) : Inv (submitStep s job_id) := by
  obtain ⟨hpb, hhg, hhh, hww, hwn, hoe, hsn, hin, hnt, hab, hwo, hce, hfe⟩ := h
  have hnotSub : job_id ∉ s.submit_order := hin job_id hp
  have hnotW : job_id ∉ s.gpu_lock_waiters := by
    intro hm
    have := hww job_id hm; rw [hp] at this; cases this
  have hEvOld : ∀ id, Event.job_update_completed id ∈ s.events →
      id ≠ job_id := by
    intro id hid hc; subst hc
    have := hce id hid; rw [hp] at this; cases this
  have hEvOldF : ∀ id, Event.job_update_failed id ∈ s.events → id ≠ job_id := by
    intro id hid hc; subst hc
    have := hfe id hid; rw [hp] at this; cases this
  unfold submitStep
  by_cases hc : s.gpu_lock_holder = none ∧ s.gpu_lock_waiters = []
  · rw [if_pos hc]
    obtain ⟨hh0, hw0⟩ := hc
    refine ⟨?_, ?_, ?_, ?_, ?_, ?_, ?_, ?_, ?_, ?_, ?_, ?_, ?_⟩
    · intro id hid
      dsimp only at hid ⊢
      rw [Function.update_apply]
      by_cases hcc : id = job_id
      · subst hcc
        have := hpb id hid; rw [hp] at this
        simp [Phase.isBusy] at this
      · rw [if_neg hcc]; exact hpb id hid
    · intro id hid
      dsimp only at hid ⊢
      rw [Function.update_apply] at hid
      by_cases hcc : id = job_id
      · subst hcc; rfl
      · rw [if_neg hcc] at hid
        have := hhg id hid
        rw [hh0] at this; cases this
    · intro id hid
      dsimp only at hid ⊢
      rw [Option.some.injEq] at hid
      subst hid
      rw [Function.update_apply, if_pos rfl]
      rfl
    · intro id hid
      dsimp only at hid ⊢
      rw [hw0] at hid; cases hid
    · dsimp only; exact hwn
    · dsimp only
      rw [hw0] at hoe
      rw [hw0, hoe]
      simp
    · dsimp only
      simp only [List.nodup_append, List.nodup_cons, List.nodup_nil]
      exact ⟨hsn, ⟨by simp, by simp⟩, by
        intro a ha hb
        simp at hb
        subst hb
        exact hnotSub ha⟩
    · intro id hid
      dsimp only at hid ⊢
      rw [Function.update_apply] at hid
      by_cases hcc : id = job_id
      · rw [if_pos hcc] at hid; cases hid
      · rw [if_neg hcc] at hid
        intro hm
        rcases List.mem_append.mp hm with hm2 | hm2
        · exact hin id hid hm2
        · simp at hm2; exact hcc hm2
    · intro id o hid
      dsimp only at hid ⊢
      rw [Function.update_apply] at hid
      by_cases hcc : id = job_id
      · rw [if_pos hcc] at hid; cases hid
      · rw [if_neg hcc] at hid; exact hnt id o hid
    · intro id hid
      dsimp only at hid ⊢
      rw [Function.update_apply]
      by_cases hcc : id = job_id
      · subst hcc
        have := hab id hid; rw [hp] at this
        simp [Phase.isBusy] at this
      · rw [if_neg hcc]; exact hab id hid
    · intro id
      dsimp only
      rw [Function.update_apply]
      by_cases hcc : id = job_id
      · rw [if_pos hcc, hwo id, hcc, hp]; rfl
      · rw [if_neg hcc]; exact hwo id
    · intro id hid
      dsimp only at hid ⊢
      have hmOld : Event.job_update_completed id ∈ s.events := by
        rcases List.mem_append.mp hid with hm | hm
        · rcases List.mem_append.mp hm with hm2 | hm2
          · exact hm2
          · simp at hm2
        · exact absurd hm (completed_not_mem_broadcast _ id)
      rw [Function.update_apply, if_neg (hEvOld id hmOld)]
      exact hce id hmOld
    · intro id hid
      dsimp only at hid ⊢
      have hmOld : Event.job_update_failed id ∈ s.events := by
        rcases List.mem_append.mp hid with hm | hm
        · rcases List.mem_append.mp hm with hm2 | hm2
          · exact hm2
          · simp at hm2
        · exact absurd hm (failed_not_mem_broadcast _ id)
      rw [Function.update_apply, if_neg (hEvOldF id hmOld)]
      exact hfe id hmOld
  · rw [if_neg hc]
    refine ⟨?_, ?_, ?_, ?_, ?_, ?_, ?_, ?_, ?_, ?_, ?_, ?_, ?_⟩
    · intro id hid
      dsimp only at hid ⊢
      rw [Function.update_apply]
      by_cases hcc : id = job_id
      · subst hcc
        have := hpb id hid; rw [hp] at this
        simp [Phase.isBusy] at this
      · rw [if_neg hcc]; exact hpb id hid
    · intro id hid
      dsimp only at hid ⊢
      rw [Function.update_apply] at hid
      by_cases hcc : id = job_id
      · rw [if_pos hcc] at hid; simp [Phase.isHolding] at hid
      · rw [if_neg hcc] at hid; exact hhg id hid
    · intro id hid
      dsimp only at hid ⊢
      have hold := hhh id hid
      by_cases hcc : id = job_id
      · subst hcc; rw [hp] at hold; simp [Phase.isHolding] at hold
      · rw [Function.update_apply, if_neg hcc]; exact hold
    · intro id hid
      dsimp only at hid ⊢
      rw [Function.update_apply]
      rcases List.mem_append.mp hid with hm | hm
      · have hne : id ≠ job_id := by
          intro hcc; subst hcc; exact hnotW hm
        rw [if_neg hne]; exact hww id hm
      · simp at hm; rw [if_pos hm]
    · dsimp only
      simp only [List.nodup_append, List.nodup_cons, List.nodup_nil]
      exact ⟨hwn, ⟨by simp, by simp⟩, by
        intro a ha hb
        simp at hb
        subst hb
        exact hnotW ha⟩
    · dsimp only
      rw [hoe]
      simp
    · dsimp only
      simp only [List.nodup_append, List.nodup_cons, List.nodup_nil]
      exact ⟨hsn, ⟨by simp, by simp⟩, by
        intro a ha hb
        simp at hb
        subst hb
        exact hnotSub ha⟩
    · intro id hid
      dsimp only at hid ⊢
      rw [Function.update_apply] at hid
      by_cases hcc : id = job_id
      · rw [if_pos hcc] at hid; cases hid
      · rw [if_neg hcc] at hid
        intro hm
        rcases List.mem_append.mp hm with hm2 | hm2
        · exact hin id hid hm2
        · simp at hm2; exact hcc hm2
    · intro id o hid
      dsimp only at hid ⊢
      rw [Function.update_apply] at hid
      by_cases hcc : id = job_id
      · rw [if_pos hcc] at hid; cases hid
      · rw [if_neg hcc] at hid; exact hnt id o hid
    · intro id hid
      dsimp only at hid ⊢
      rw [Function.update_apply]
      by_cases hcc : id = job_id
      · subst hcc
        have := hab id hid; rw [hp] at this
        simp [Phase.isBusy] at this
      · rw [if_neg hcc]; exact hab id hid
    · intro id
      dsimp only
      rw [Function.update_apply]
      by_cases hcc : id = job_id
      · rw [if_pos hcc, hwo id, hcc, hp]; rfl
      · rw [if_neg hcc]; exact hwo id
    · intro id hid
      dsimp only at hid ⊢
      have hmOld : Event.job_update_completed id ∈ s.events := by
        rcases List.mem_append.mp hid with hm | hm
        · rcases List.mem_append.mp hm with hm2 | hm2
          · exact hm2
          · simp at hm2
        · exact absurd hm (completed_not_mem_broadcast _ id)
      rw [Function.update_apply, if_neg (hEvOld id hmOld)]
      exact hce id hmOld
    · intro id hid
      dsimp only at hid ⊢
      have hmOld : Event.job_update_failed id ∈ s.events := by
        rcases List.mem_append.mp hid with hm | hm
        · rcases List.mem_append.mp hm with hm2 | hm2
          · exact hm2
          · simp at hm2
        · exact absurd hm (failed_not_mem_broadcast _ id)
      rw [Function.update_apply, if_neg (hEvOldF id hmOld)]
      exact hfe id hmOld

theorem inv_admission {s : SchedulerState} (h : Inv s) (job_id : JobId)
    (hl : s.gpu_lock_holder = some job_id)
    (hp : s.phase job_id = Phase.admitted) : Inv (admissionStep s job_id) := by
  obtain ⟨hpb, hhg, hhh, hww, hwn, hoe, hsn, hin, hnt, hab, hwo, hce, hfe⟩ := h
  have hnoTok : s.active_jobs job_id = none := by
    cases hactive : s.active_jobs job_id with
    | none => rfl
    | some b =>
        have := hab job_id (by rw [hactive]; rfl)
        rw [hp] at this
        simp [Phase.isBusy] at this
  have hnotW : job_id ∉ s.gpu_lock_waiters := by
    intro hm
    have := hww job_id hm; rw [hp] at this; cases this
  have hholdOnly : ∀ id, (s.phase id).isHolding = true → id = job_id := by
    intro id hid
    have := hhg id hid
    rw [hl] at this
    exact (Option.some.injEq _ _).mp this.symm
  have hnoProc : ∀ id, id ≠ job_id → s.store id ≠ some JobStatus.processing := by
    intro id hne hcontra
    exact hne (hholdOnly id (isBusy_isHolding (hpb id hcontra)))
  have hEvC : ∀ id, Event.job_update_completed id ∈ s.events → id ≠ job_id := by
    intro id hid hcc; subst hcc
    have := hce id hid; rw [hp] at this; cases this
  have hEvF : ∀ id, Event.job_update_failed id ∈ s.events → id ≠ job_id := by
    intro id hid hcc; subst hcc
    have := hfe id hid; rw [hp] at this; cases this
  unfold admissionStep
  cases hst : s.store job_id with
  | none =>
      apply inv_release
      refine ⟨?_, ?_, ?_, ?_, ?_, ?_, ?_, ?_, ?_, ?_, ?_, ?_⟩
      · intro id
        dsimp only
        rw [Function.update_apply]
        by_cases hcc : id = job_id
        · rw [if_pos hcc]; rfl
        · rw [if_neg hcc]
          cases hhi : (s.phase id).isHolding with
          | false => rfl
          | true => exact absurd (hholdOnly id hhi) hcc
      · intro id
        dsimp only
        rw [dequeueSelf_store]
        by_cases hcc : id = job_id
        · rw [hcc, hst]; intro hcontra; cases hcontra
        · exact hnoProc id hcc
      · intro id hid
        dsimp only at hid ⊢
        rw [dequeueSelf_waiters] at hid
        have hne : id ≠ job_id := by
          intro hcc; subst hcc; exact hnotW hid
        rw [Function.update_apply, if_neg hne]
        exact hww id hid
      · dsimp only; rw [dequeueSelf_waiters]; exact hwn
      · dsimp only
        rw [dequeueSelf_submit_order, dequeueSelf_acquire_order, dequeueSelf_waiters]
        exact hoe
      · dsimp only; rw [dequeueSelf_submit_order]; exact hsn
      · intro id hid
        dsimp only at hid ⊢
        rw [dequeueSelf_submit_order]
        rw [Function.update_apply] at hid
        by_cases hcc : id = job_id
        · rw [if_pos hcc] at hid; cases hid
        · rw [if_neg hcc] at hid; exact hin id hid
      · intro id o hid
        dsimp only at hid ⊢
        rw [dequeueSelf_active]
        rw [Function.update_apply] at hid
        by_cases hcc : id = job_id
        · rw [hcc]; exact hnoTok
        · rw [if_neg hcc] at hid; exact hnt id o hid
      · intro id hid
        dsimp only at hid ⊢
        rw [dequeueSelf_active] at hid
        rw [Function.update_apply]
        by_cases hcc : id = job_id
        · rw [hcc, hnoTok] at hid; cases hid
        · rw [if_neg hcc]; exact hab id hid
      · intro id
        dsimp only
        rw [dequeueSelf_writes, Function.update_apply]
        by_cases hcc : id = job_id
        · rw [if_pos hcc, hwo id, hcc, hp]; rfl
        · rw [if_neg hcc]; exact hwo id
      · intro id hid
        dsimp only at hid ⊢
        have hmOld : Event.job_update_completed id ∈ s.events :=
          mem_events_dequeueSelf hid (fun q => completed_not_mem_broadcast q id)
        rw [Function.update_apply, if_neg (hEvC id hmOld)]
        exact hce id hmOld
      · intro id hid
        dsimp only at hid ⊢
        have hmOld : Event.job_update_failed id ∈ s.events :=
          mem_events_dequeueSelf hid (fun q => failed_not_mem_broadcast q id)
        rw [Function.update_apply, if_neg (hEvF id hmOld)]
        exact hfe id hmOld
  | some st =>
      refine ⟨?_, ?_, ?_, ?_, ?_, ?_, ?_, ?_, ?_, ?_, ?_, ?_, ?_⟩
      · intro id hid
        dsimp only at hid ⊢
        rw [Function.update_apply] at hid
        rw [Function.update_apply]
        by_cases hcc : id = job_id
        · rw [if_pos hcc]; rfl
        · rw [if_neg hcc] at hid
          rw [if_neg hcc]
          exact hpb id hid
      · intro id hid
        dsimp only at hid ⊢
        rw [dequeueSelf_holder]
        rw [Function.update_apply] at hid
        by_cases hcc : id = job_id
        · rw [hcc]; exact hl
        · rw [if_neg hcc] at hid
          exact absurd (hholdOnly id hid) hcc
      · intro id hid
        dsimp only at hid ⊢
        rw [dequeueSelf_holder] at hid
        rw [hl, Option.some.injEq] at hid
        subst hid
        rw [Function.update_apply, if_pos rfl]
        rfl
      · intro id hid
        dsimp only at hid ⊢
        rw [dequeueSelf_waiters] at hid
        have hne : id ≠ job_id := by
          intro hcc; subst hcc; exact hnotW hid
        rw [Function.update_apply, if_neg hne]
        exact hww id hid
      · dsimp only; rw [dequeueSelf_waiters]; exact hwn
      · dsimp only
        rw [dequeueSelf_submit_order, dequeueSelf_acquire_order, dequeueSelf_waiters]
        exact hoe
      · dsimp only; rw [dequeueSelf_submit_order]; exact hsn
      · intro id hid
        dsimp only at hid ⊢
        rw [dequeueSelf_submit_order]
        rw [Function.update_apply] at hid
        by_cases hcc : id = job_id
        · rw [if_pos hcc] at hid; cases hid
        · rw [if_neg hcc] at hid; exact hin id hid
      · intro id o hid
        dsimp only at hid ⊢
        rw [Function.update_apply] at hid
        by_cases hcc : id = job_id
        · rw [if_pos hcc] at hid; cases hid
        · rw [if_neg hcc] at hid
          unfold register_token
          rw [Function.update_apply, if_neg hcc]
          exact hnt id o hid
      · intro id hid
        dsimp only at hid ⊢
        unfold register_token at hid
        rw [Function.update_apply] at hid
        rw [Function.update_apply]
        by_cases hcc : id = job_id
        · rw [if_pos hcc]; rfl
        · rw [if_neg hcc] at hid
          rw [if_neg hcc]
          exact hab id hid
      · intro id
        dsimp only
        rw [Function.update_apply, Function.update_apply]
        by_cases hcc : id = job_id
        · rw [if_pos hcc, if_pos hcc, hwo job_id, hp]; rfl
        · rw [if_neg hcc, if_neg hcc]; exact hwo id
      · intro id hid
        dsimp only at hid ⊢
        have hmOld : Event.job_update_completed id ∈ s.events := by
          rcases List.mem_append.mp hid with hm | hm
          · exact mem_events_dequeueSelf hm (fun q => completed_not_mem_broadcast q id)
          · simp at hm
        rw [Function.update_apply, if_neg (hEvC id hmOld)]
        exact hce id hmOld
      · intro id hid
        dsimp only at hid ⊢
        have hmOld : Event.job_update_failed id ∈ s.events := by
          rcases List.mem_append.mp hid with hm | hm
          · exact mem_events_dequeueSelf hm (fun q => failed_not_mem_broadcast q id)
          · simp at hm
        rw [Function.update_apply, if_neg (hEvF id hmOld)]
        exact hfe id hmOld

theorem inv_finishOk {s : SchedulerState} (h : Inv s) (job_id : JobId)
    (hl : s.gpu_lock_holder = some job_id)
    (hp : s.phase job_id = Phase.finishingOk) : Inv (finishOkStep s job_id) := by
  obtain ⟨hpb, hhg, hhh, hww, hwn, hoe, hsn, hin, hnt, hab, hwo, hce, hfe⟩ := h
  have hnotW : job_id ∉ s.gpu_lock_waiters := by
    intro hm
    have := hww job_id hm; rw [hp] at this; cases this
  have hholdOnly : ∀ id, (s.phase id).isHolding = true → id = job_id := by
    intro id hid
    have := hhg id hid
    rw [hl] at this
    exact (Option.some.injEq _ _).mp this.symm
  have hnoProc : ∀ id, id ≠ job_id → s.store id ≠ some JobStatus.processing := by
    intro id hne hcontra
    exact hne (hholdOnly id (isBusy_isHolding (hpb id hcontra)))
  have hEvC : ∀ id, Event.job_update_completed id ∈ s.events → id ≠ job_id := by
    intro id hid hcc; subst hcc
    have := hce id hid; rw [hp] at this; cases this
  have hEvF : ∀ id, Event.job_update_failed id ∈ s.events → id ≠ job_id := by
    intro id hid hcc; subst hcc
    have := hfe id hid; rw [hp] at this; cases this
  unfold finishOkStep
  cases hst : s.store job_id with
  | none =>
      apply inv_release
      refine ⟨?_, ?_, ?_, hwn, hoe, hsn, ?_, ?_, ?_, ?_, ?_, ?_⟩
      · intro id
        dsimp only
        rw [Function.update_apply]
        by_cases hcc : id = job_id
        · rw [if_pos hcc]; rfl
        · rw [if_neg hcc]
          cases hhi : (s.phase id).isHolding with
          | false => rfl
          | true => exact absurd (hholdOnly id hhi) hcc
      · intro id
        dsimp only
        by_cases hcc : id = job_id
        · rw [hcc, hst]; intro hcontra; cases hcontra
        · exact hnoProc id hcc
      · intro id hid
        dsimp only at hid ⊢
        have hne : id ≠ job_id := by
          intro hcc; subst hcc; exact hnotW hid
        rw [Function.update_apply, if_neg hne]
        exact hww id hid
      · intro id hid
        dsimp only at hid ⊢
        rw [Function.update_apply] at hid
        by_cases hcc : id = job_id
        · rw [if_pos hcc] at hid; cases hid
        · rw [if_neg hcc] at hid; exact hin id hid
      · intro id o hid
        dsimp only at hid ⊢
        rw [Function.update_apply] at hid
        rw [Function.update_apply]
        by_cases hcc : id = job_id
        · rw [if_pos hcc]
        · rw [if_neg hcc] at hid
          rw [if_neg hcc]
          exact hnt id o hid
      · intro id hid
        dsimp only at hid ⊢
        rw [Function.update_apply] at hid
        rw [Function.update_apply]
        by_cases hcc : id = job_id
        · rw [if_pos hcc] at hid; cases hid
        · rw [if_neg hcc] at hid
          rw [if_neg hcc]
          exact hab id hid
      · intro id
        dsimp only
        rw [Function.update_apply]
        by_cases hcc : id = job_id
        · rw [if_pos hcc, hcc, hwo job_id, hp]; rfl
        · rw [if_neg hcc]; exact hwo id
      · intro id hid
        dsimp only at hid ⊢
        rw [Function.update_apply, if_neg (hEvC id hid)]
        exact hce id hid
      · intro id hid
        dsimp only at hid ⊢
        rw [Function.update_apply, if_neg (hEvF id hid)]
        exact hfe id hid
  | some st =>
      apply inv_release
      refine ⟨?_, ?_, ?_, hwn, hoe, hsn, ?_, ?_, ?_, ?_, ?_, ?_⟩
      · intro id
        dsimp only
        rw [Function.update_apply]
        by_cases hcc : id = job_id
        · rw [if_pos hcc]; rfl
        · rw [if_neg hcc]
          cases hhi : (s.phase id).isHolding with
          | false => rfl
          | true => exact absurd (hholdOnly id hhi) hcc
      · intro id
        dsimp only
        rw [Function.update_apply]
        by_cases hcc : id = job_id
        · rw [if_pos hcc]; intro hcontra; cases hcontra
        · rw [if_neg hcc]; exact hnoProc id hcc
      · intro id hid
        dsimp only at hid ⊢
        have hne : id ≠ job_id := by
          intro hcc; subst hcc; exact hnotW hid
        rw [Function.update_apply, if_neg hne]
        exact hww id hid
      · intro id hid
        dsimp only at hid ⊢
        rw [Function.update_apply] at hid
        by_cases hcc : id = job_id
        · rw [if_pos hcc] at hid; cases hid
        · rw [if_neg hcc] at hid; exact hin id hid
      · intro id o hid
        dsimp only at hid ⊢
        rw [Function.update_apply] at hid
        rw [Function.update_apply]
        by_cases hcc : id = job_id
        · rw [if_pos hcc]
        · rw [if_neg hcc] at hid
          rw [if_neg hcc]
          exact hnt id o hid
      · intro id hid
        dsimp only at hid ⊢
        rw [Function.update_apply] at hid
        rw [Function.update_apply]
        by_cases hcc : id = job_id
        · rw [if_pos hcc] at hid; cases hid
        · rw [if_neg hcc] at hid
          rw [if_neg hcc]
          exact hab id hid
      · intro id
        dsimp only
        rw [Function.update_apply, Function.update_apply]
        by_cases hcc : id = job_id
        · rw [if_pos hcc, if_pos hcc, hwo job_id, hp]; rfl
        · rw [if_neg hcc, if_neg hcc]; exact hwo id
      · intro id hid
        dsimp only at hid ⊢
        rw [Function.update_apply]
        rcases List.mem_append.mp hid with hm | hm
        · rw [if_neg (hEvC id hm)]
          exact hce id hm
        · simp only [List.mem_cons, List.not_mem_nil, or_false] at hm
          rcases hm with hm | hm
          · cases hm
            rw [if_pos rfl]
          · cases hm
      · intro id hid
        dsimp only at hid ⊢
        have hmOld : Event.job_update_failed id ∈ s.events := by
          rcases List.mem_append.mp hid with hm | hm
          · exact hm
          · simp at hm
        rw [Function.update_apply, if_neg (hEvF id hmOld)]
        exact hfe id hmOld

theorem inv_finishErr {s : SchedulerState} (h : Inv s) (job_id : JobId)
    (hl : s.gpu_lock_holder = some job_id)
    (hp : s.phase job_id = Phase.finishingErr) : Inv (finishErrStep s job_id) := by
  obtain ⟨hpb, hhg, hhh, hww, hwn, hoe, hsn, hin, hnt, hab, hwo, hce, hfe⟩ := h
  have hnotW : job_id ∉ s.gpu_lock_waiters := by
    intro hm
    have := hww job_id hm; rw [hp] at this; cases this
  have hholdOnly : ∀ id, (s.phase id).isHolding = true → id = job_id := by
    intro id hid
    have := hhg id hid
    rw [hl] at this
    exact (Option.some.injEq _ _).mp this.symm
  have hnoProc : ∀ id, id ≠ job_id → s.store id ≠ some JobStatus.processing := by
    intro id hne hcontra
    exact hne (hholdOnly id (isBusy_isHolding (hpb id hcontra)))
  have hEvC : ∀ id, Event.job_update_completed id ∈ s.events → id ≠ job_id := by
    intro id hid hcc; subst hcc
    have := hce id hid; rw [hp] at this; cases this
  have hEvF : ∀ id, Event.job_update_failed id ∈ s.events → id ≠ job_id := by
    intro id hid hcc; subst hcc
    have := hfe id hid; rw [hp] at this; cases this
  unfold finishErrStep
  cases hst : s.store job_id with
  | none =>
      apply inv_release
      refine ⟨?_, ?_, ?_, hwn, hoe, hsn, ?_, ?_, ?_, ?_, ?_, ?_⟩
      · intro id
        dsimp only
        rw [Function.update_apply]
        by_cases hcc : id = job_id
        · rw [if_pos hcc]; rfl
        · rw [if_neg hcc]
          cases hhi : (s.phase id).isHolding with
          | false => rfl
          | true => exact absurd (hholdOnly id hhi) hcc
      · intro id
        dsimp only
        by_cases hcc : id = job_id
        · rw [hcc, hst]; intro hcontra; cases hcontra
        · exact hnoProc id hcc
      · intro id hid
        dsimp only at hid ⊢
        have hne : id ≠ job_id := by
          intro hcc; subst hcc; exact hnotW hid
        rw [Function.update_apply, if_neg hne]
        exact hww id hid
      · intro id hid
        dsimp only at hid ⊢
        rw [Function.update_apply] at hid
        by_cases hcc : id = job_id
        · rw [if_pos hcc] at hid; cases hid
        · rw [if_neg hcc] at hid; exact hin id hid
      · intro id o hid
        dsimp only at hid ⊢
        rw [Function.update_apply] at hid
        rw [Function.update_apply]
        by_cases hcc : id = job_id
        · rw [if_pos hcc]
        · rw [if_neg hcc] at hid
          rw [if_neg hcc]
          exact hnt id o hid
      · intro id hid
        dsimp only at hid ⊢
        rw [Function.update_apply] at hid
        rw [Function.update_apply]
        by_cases hcc : id = job_id
        · rw [if_pos hcc] at hid; cases hid
        · rw [if_neg hcc] at hid
          rw [if_neg hcc]
          exact hab id hid
      · intro id
        dsimp only
        rw [Function.update_apply]
        by_cases hcc : id = job_id
        · rw [if_pos hcc, hcc, hwo job_id, hp]; rfl
        · rw [if_neg hcc]; exact hwo id
      · intro id hid
        dsimp only at hid ⊢
        rw [Function.update_apply, if_neg (hEvC id hid)]
        exact hce id hid
      · intro id hid
        dsimp only at hid ⊢
        rw [Function.update_apply, if_neg (hEvF id hid)]
        exact hfe id hid
  | some st =>
      apply inv_release
      refine ⟨?_, ?_, ?_, hwn, hoe, hsn, ?_, ?_, ?_, ?_, ?_, ?_⟩
      · intro id
        dsimp only
        rw [Function.update_apply]
        by_cases hcc : id = job_id
        · rw [if_pos hcc]; rfl
        · rw [if_neg hcc]
          cases hhi : (s.phase id).isHolding with
          | false => rfl
          | true => exact absurd (hholdOnly id hhi) hcc
      · intro id
        dsimp only
        rw [Function.update_apply]
        by_cases hcc : id = job_id
        · rw [if_pos hcc]; intro hcontra; cases hcontra
        · rw [if_neg hcc]; exact hnoProc id hcc
      · intro id hid
        dsimp only at hid ⊢
        have hne : id ≠ job_id := by
          intro hcc; subst hcc; exact hnotW hid
        rw [Function.update_apply, if_neg hne]
        exact hww id hid
      · intro id hid
        dsimp only at hid ⊢
        rw [Function.update_apply] at hid
        by_cases hcc : id = job_id
        · rw [if_pos hcc] at hid; cases hid
        · rw [if_neg hcc] at hid; exact hin id hid
      · intro id o hid
        dsimp only at hid ⊢
        rw [Function.update_apply] at hid
        rw [Function.update_apply]
        by_cases hcc : id = job_id
        · rw [if_pos hcc]
        · rw [if_neg hcc] at hid
          rw [if_neg hcc]
          exact hnt id o hid
      · intro id hid
        dsimp only at hid ⊢
        rw [Function.update_apply] at hid
        rw [Function.update_apply]
        by_cases hcc : id = job_id
        · rw [if_pos hcc] at hid; cases hid
        · rw [if_neg hcc] at hid
          rw [if_neg hcc]
          exact hab id hid
      · intro id
        dsimp only
        rw [Function.update_apply, Function.update_apply]
        by_cases hcc : id = job_id
        · rw [if_pos hcc, if_pos hcc, hwo job_id, hp]; rfl
        · rw [if_neg hcc, if_neg hcc]; exact hwo id
      · intro id hid
        dsimp only at hid ⊢
        have hmOld : Event.job_update_completed id ∈ s.events := by
          rcases List.mem_append.mp hid with hm | hm
          · exact hm
          · simp at hm
        rw [Function.update_apply, if_neg (hEvC id hmOld)]
        exact hce id hmOld
      · intro id hid
        dsimp only at hid ⊢
        rw [Function.update_apply]
        rcases List.mem_append.mp hid with hm | hm
        · rw [if_neg (hEvF id hm)]
          exact hfe id hm
        · simp only [List.mem_singleton] at hm
          cases hm
          rw [if_pos rfl]

theorem inv_init (store0 : JobId → Option JobStatus)
    (h0 : ∀ id, store0 id ≠ some JobStatus.processing) : Inv (initState store0) := by
  refine ⟨?_, ?_, ?_, ?_, ?_, ?_, ?_, ?_, ?_, ?_, ?_, ?_, ?_⟩
  · intro id hid; exact absurd hid (h0 id)
  · intro id hid; simp [initState, Phase.isHolding] at hid
  · intro id hid; simp [initState] at hid
  · intro id hid; simp [initState] at hid
  · simp [initState]
  · simp [initState]
  · simp [initState]
  · intro id _; simp [initState]
  · intro id o _; rfl
  · intro id hid; simp [initState] at hid
  · intro id; rfl
  · intro id hid; simp [initState] at hid
  · intro id hid; simp [initState] at hid

theorem inv_step {s t : SchedulerState} (h : Inv s) (hs : Step s t) : Inv t := by
  cases hs with
  | submit job_id hp => exact inv_submit h job_id hp
  | admission job_id hl hp => exact inv_admission h job_id hl hp
  | engineDone job_id ok hp => exact inv_engineDone h job_id ok hp
  | progress job_id p hp => exact inv_progress h job_id p
  | finishOk job_id hl hp => exact inv_finishOk h job_id hl hp
  | finishErr job_id hl hp => exact inv_finishErr h job_id hl hp
  | cancel job_id => exact inv_cancel h job_id
  | deleteRecord job_id => exact inv_delete h job_id

theorem inv_reachable {store0 : JobId → Option JobStatus}
    (h0 : ∀ id, store0 id ≠ some JobStatus.processing)
    {s : SchedulerState} (hr : Reachable (initState store0) s) : Inv s := by
  induction hr with
  | refl => exact inv_init store0 h0
  | tail hsteps hstep ih => exact inv_step ih hstep

theorem before_in_append_of_mem {l t : List JobId} {a b : JobId}
    (hnd : (l ++ t).Nodup) (hab : before_in (l ++ t) a b) (hb : b ∈ l) :
    a ∈ l ∧ before_in l a b := by
  obtain ⟨i, j, hij, ha, hbs⟩ := hab
  obtain ⟨jb, hjb⟩ := List.mem_iff_get.mp hb
  have hjlt : (jb : Nat) < (l ++ t).length := by
    rw [List.length_append]
    exact Nat.lt_of_lt_of_le jb.isLt (Nat.le_add_right _ _)
  have hget : (l ++ t).get ⟨jb, hjlt⟩ = b := by
    rw [← hjb]
    have := @List.get_append JobId l t (jb : Nat) jb.isLt
    simpa using this
  have hjj : j = ⟨jb, hjlt⟩ := by
    apply (List.Nodup.get_inj_iff hnd).mp
    rw [hbs, hget]
  have hjval : (j : Nat) = (jb : Nat) := by rw [hjj]
  have hilt : (i : Nat) < l.length := by
    have : (i : Nat) < (jb : Nat) := hjval ▸ hij
    exact Nat.lt_trans this jb.isLt
  have hai : l.get ⟨i, hilt⟩ = a := by
    rw [← ha]
    have := @List.get_append JobId l t (i : Nat) hilt
    simpa using this.symm
  constructor
  · rw [← hai]; exact List.get_mem _ _ _
  · refine ⟨⟨i, hilt⟩, jb, ?_, hai, hjb⟩
    show (i : Nat) < (jb : Nat)
    rw [← hjval]
    exact hij

theorem scan_max_le (xs : List ℚ) (bv : ℚ) (bi i : Nat) :
    bv ≤ (scan_max xs bv bi i).1 ∧ ∀ x ∈ xs, x ≤ (scan_max xs bv bi i).1 := by
  induction xs generalizing bv bi i with
  | nil => exact ⟨le_refl bv, by intro x hx; cases hx⟩
  | cons y ys ih =>
      unfold scan_max
      by_cases hc : bv < y
      · rw [if_pos hc]
        obtain ⟨h1, h2⟩ := ih y i (i + 1)
        refine ⟨le_trans (le_of_lt hc) h1, ?_⟩
        intro x hx
        rcases List.mem_cons.mp hx with hx | hx
        · rw [hx]; exact h1
        · exact h2 x hx
      · rw [if_neg hc]
        obtain ⟨h1, h2⟩ := ih bv bi (i + 1)
        refine ⟨h1, ?_⟩
        intro x hx
        rcases List.mem_cons.mp hx with hx | hx
        · rw [hx]; exact le_trans (le_of_not_lt hc) h1
        · exact h2 x hx

theorem scan_max_result (xs : List ℚ) (bv : ℚ) (bi i : Nat) :
    scan_max xs bv bi i = (bv, bi) ∨
      ∃ k, xs.get? k = some (scan_max xs bv bi i).1 ∧
        (scan_max xs bv bi i).2 = i + k := by
  induction xs generalizing bv bi i with
  | nil => exact Or.inl rfl
  | cons y ys ih =>
      unfold scan_max
      by_cases hc : bv < y
      · rw [if_pos hc]
        rcases ih y i (i + 1) with h | ⟨k, h1, h2⟩
        · right
          refine ⟨0, ?_, ?_⟩
          · rw [h]; rfl
          · rw [h]; rfl
        · right
          refine ⟨k + 1, ?_, ?_⟩
          · simpa using h1
          · rw [h2]; omega
      · rw [if_neg hc]
        rcases ih bv bi (i + 1) with h | ⟨k, h1, h2⟩
        · exact Or.inl h
        · right
          refine ⟨k + 1, ?_, ?_⟩
          · simpa using h1
          · rw [h2]; omega

theorem scan_min_le (xs : List ℚ) (bv : ℚ) (bi i : Nat) :
    (scan_min xs bv bi i).1 ≤ bv ∧ ∀ x ∈ xs, (scan_min xs bv bi i).1 ≤ x := by
  induction xs generalizing bv bi i with
  | nil => exact ⟨le_refl bv, by intro x hx; cases hx⟩
  | cons y ys ih =>
      unfold scan_min
      by_cases hc : y < bv
      · rw [if_pos hc]
        obtain ⟨h1, h2⟩ := ih y i (i + 1)
        refine ⟨le_trans h1 (le_of_lt hc), ?_⟩
        intro x hx
        rcases List.mem_cons.mp hx with hx | hx
        · rw [hx]; exact h1
        · exact h2 x hx
      · rw [if_neg hc]
        obtain ⟨h1, h2⟩ := ih bv bi (i + 1)
        refine ⟨h1, ?_⟩
        intro x hx
        rcases List.mem_cons.mp hx with hx | hx
        · rw [hx]; exact le_trans h1 (le_of_not_lt hc)
        · exact h2 x hx

theorem scan_min_result (xs : List ℚ) (bv : ℚ) (bi i : Nat) :
    scan_min xs bv bi i = (bv, bi) ∨
      ∃ k, xs.get? k = some (scan_min xs bv bi i).1 ∧
        (scan_min xs bv bi i).2 = i + k := by
  induction xs generalizing bv bi i with
  | nil => exact Or.inl rfl
  | cons y ys ih =>
      unfold scan_min
      by_cases hc : y < bv
      · rw [if_pos hc]
        rcases ih y i (i + 1) with h | ⟨k, h1, h2⟩
        · right
          refine ⟨0, ?_, ?_⟩
          · rw [h]; rfl
          · rw [h]; rfl
        · right
          refine ⟨k + 1, ?_, ?_⟩
          · simpa using h1
          · rw [h2]; omega
      · rw [if_neg hc]
        rcases ih bv bi (i + 1) with h | ⟨k, h1, h2⟩
        · exact Or.inl h
        · right
          refine ⟨k + 1, ?_, ?_⟩
          · simpa using h1
          · rw [h2]; omega

theorem py_max_key_spec (l : List ℚ) (hne : l ≠ []) :
    ∃ v, l.get? (py_max_key l) = some v ∧ ∀ y ∈ l, y ≤ v := by
  cases l with
  | nil => exact absurd rfl hne
  | cons x xs =>
      unfold py_max_key
      dsimp only
      obtain ⟨h1, h2⟩ := scan_max_le xs x 0 1
      refine ⟨(scan_max xs x 0 1).1, ?_, ?_⟩
      · rcases scan_max_result xs x 0 1 with h | ⟨k, hk1, hk2⟩
        · rw [h]; rfl
        · rw [hk2, Nat.add_comm]
          simpa using hk1
      · intro y hy
        rcases List.mem_cons.mp hy with hy | hy
        · rw [hy]; exact h1
        · exact h2 y hy

theorem py_min_key_spec (l : List ℚ) (hne : l ≠ []) :
    ∃ v, l.get? (py_min_key l) = some v ∧ ∀ y ∈ l, v ≤ y := by
  cases l with
  | nil => exact absurd rfl hne
  | cons x xs =>
      unfold py_min_key
      dsimp only
      obtain ⟨h1, h2⟩ := scan_min_le xs x 0 1
      refine ⟨(scan_min xs x 0 1).1, ?_, ?_⟩
      · rcases scan_min_result xs x 0 1 with h | ⟨k, hk1, hk2⟩
        · rw [h]; rfl
        · rw [hk2, Nat.add_comm]
          simpa using hk1
      · intro y hy
        rcases List.mem_cons.mp hy with hy | hy
        · rw [hy]; exact h1
        · exact h2 y hy

theorem reach_t1 : Reachable t0 t1 :=
  Relation.ReflTransGen.single (Step.submit t0 1 (by decide))

theorem reach_t2 : Reachable t0 t2 :=
  Relation.ReflTransGen.tail reach_t1 (Step.admission t1 1 (by decide) (by decide))

theorem reach_t6 : Reachable t0 t6 := by
  have h3 : Step t2 t3 := Step.submit t2 2 (by decide)
  have h4 : Step t3 t4 := Step.cancel t3 2
  have h5 : Step t4 t5 := Step.engineDone t4 1 true (by decide)
  have h6 : Step t5 t6 := Step.finishOk t5 1 (by decide) (by decide)
  exact Relation.ReflTransGen.tail
    (Relation.ReflTransGen.tail
      (Relation.ReflTransGen.tail (Relation.ReflTransGen.tail reach_t2 h3) h4) h5) h6

theorem reach_t7 : Reachable t0 t7 :=
  Relation.ReflTransGen.tail reach_t6 (Step.admission t6 2 (by decide) (by decide))

theorem reach_u3 : Reachable t0 u3 := by
  have h2 : Step t1 u2 := Step.deleteRecord t1 1
  have h3 : Step u2 u3 := Step.admission u2 1 (by decide) (by decide)
  exact Relation.ReflTransGen.tail (Relation.ReflTransGen.tail reach_t1 h2) h3

theorem reach_v5 : Reachable t0 v5 := by
  have h3 : Step t2 v3 := Step.deleteRecord t2 1
  have h4 : Step v3 v4 := Step.engineDone v3 1 false (by decide)
  have h5 : Step v4 v5 := Step.finishErr v4 1 (by decide) (by decide)
  exact Relation.ReflTransGen.tail
    (Relation.ReflTransGen.tail (Relation.ReflTransGen.tail reach_t2 h3) h4) h5

theorem allQueuedStore_no_processing :
    ∀ id, allQueuedStore id ≠ some JobStatus.processing := by
  intro id h
  simp [allQueuedStore] at h

/-! ## Claim theorems -/

/-- C1: at most one job occupies the PROCESSING state at any instant
system-wide.  In every state reachable from an initial state whose store
holds no PROCESSING record, a record with status PROCESSING belongs to the
job currently holding the gpu_lock gate, so any two simultaneously
PROCESSING records coincide: the transition into PROCESSING and the
terminal transition out both happen while the single shared gate is held. -/
theorem processing_mutual_exclusion (store0 : JobId → Option JobStatus)
    (h0 : ∀ id, store0 id ≠ some JobStatus.processing)
    (s : SchedulerState) (hr : Reachable (initState store0) s)
    (i j : JobId) (hi : s.store i = some JobStatus.processing)
    (hj : s.store j = some JobStatus.processing) :
    s.gpu_lock_holder = some i ∧ i = j := by
  have hinv := inv_reachable h0 hr
  have hhi := hinv.holdGate i (isBusy_isHolding (hinv.procBusy i hi))
  have hhj := hinv.holdGate j (isBusy_isHolding (hinv.procBusy j hj))
  refine ⟨hhi, ?_⟩
  rw [hhi] at hhj
  exact (Option.some.injEq _ _).mp hhj

/-- Witness for C1: in the concrete run, right after job 1 was set to
PROCESSING its record is the unique PROCESSING record and job 1 holds the
gate. -/
theorem processing_mutual_exclusion_witness :
    t2.gpu_lock_holder = some 1 ∧ 1 = 1 :=
  processing_mutual_exclusion allQueuedStore allQueuedStore_no_processing t2 reach_t2
    1 1 (by decide) (by decide)

/-- C2: gate acquisition order matches AdmissionQueue arrival order with no
overtaking: whenever job a was appended to the queue (and hence reached the
gate, since both happen in the same atomic block) before job b, and b has
acquired the gate, then a acquired it earlier.  The ghost logs submit_order
and acquire_order record exactly those instants. -/
theorem gate_acquisition_fifo (store0 : JobId → Option JobStatus)
    (h0 : ∀ id, store0 id ≠ some JobStatus.processing)
    (s : SchedulerState) (hr : Reachable (initState store0) s)
    (a b : JobId) (hab : before_in s.submit_order a b)
    (hb : b ∈ s.acquire_order) :
    a ∈ s.acquire_order ∧ before_in s.acquire_order a b := by
  have hinv := inv_reachable h0 hr
  have hoe := hinv.orderEq
  have hsn := hinv.submitNodup
  rw [hoe] at hab hsn
  exact before_in_append_of_mem hsn hab hb

/-- Witness for C2: in the concrete run job 1 submitted before job 2 and
both acquired the gate; job 1 acquired first. -/
theorem gate_acquisition_fifo_witness :
    1 ∈ t6.acquire_order ∧ before_in t6.acquire_order 1 2 :=
  gate_acquisition_fifo allQueuedStore allQueuedStore_no_processing t6 reach_t6
    1 2 (by decide) (by decide)

/-- C3: the code bug.  cancel_job of the queued job 2 removes it from
job_queue and returns True, yet the generate_task coroutine of job 2 is
still parked on gpu_lock; once job 1 finishes, job 2 is granted the gate,
runs its admission block, and its record is set to PROCESSING (it then
generates in full) — contradicting the claim and the spec sentence that a
queue-cancelled job never starts and never reaches Processing. -/
theorem cancel_queued_job_still_processes :
    2 ∈ t3.job_queue ∧ (cancel_job t3 2).2 = true ∧ 2 ∉ t4.job_queue ∧
    Reachable t0 t7 ∧ t7.store 2 = some JobStatus.processing ∧
    t7.phase 2 = Phase.generating :=
  ⟨by decide, by decide, by decide, reach_t7, by decide, by decide⟩

/-- C4 (amended): when the Job record is absent at a re-fetch point the
scheduler performs no further store writes for that id and publishes no
terminal event.  Before PROCESSING (outcome deletedBeforeProcessing) and on
the completion path (outcome resultDiscarded) the task also returns
benignly; on the failure path (outcome crashedNoRecord) the .one() re-fetch
raises and the exception escapes the task, so the abort is NOT error-free
there — see the counterexample. -/
theorem stale_record_no_writes_no_terminal_event
    (store0 : JobId → Option JobStatus)
    (h0 : ∀ id, store0 id ≠ some JobStatus.processing)
    (s : SchedulerState) (hr : Reachable (initState store0) s) (job_id : JobId) :
    (s.phase job_id = Phase.done Outcome.deletedBeforeProcessing →
      s.writes_by job_id = [] ∧ no_terminal_event s.events job_id) ∧
    (s.phase job_id = Phase.done Outcome.resultDiscarded →
      s.writes_by job_id = [JobStatus.processing] ∧
        no_terminal_event s.events job_id) ∧
    (s.phase job_id = Phase.done Outcome.crashedNoRecord →
      s.writes_by job_id = [JobStatus.processing] ∧
        no_terminal_event s.events job_id) := by
  have hinv := inv_reachable h0 hr
  have hwr : ∀ o, s.phase job_id = Phase.done o →
      s.writes_by job_id = expectedWrites (Phase.done o) := by
    intro o hp
    rw [hinv.writesOk job_id, hp]
  have hnte : ∀ o, o ≠ Outcome.completed → o ≠ Outcome.failed →
      s.phase job_id = Phase.done o → no_terminal_event s.events job_id := by
    intro o hne1 hne2 hp
    constructor
    · intro hm
      have h2 := (hinv.completedEvent job_id hm).symm.trans hp
      injection h2 with h3
      exact hne1 h3.symm
    · intro hm
      have h2 := (hinv.failedEvent job_id hm).symm.trans hp
      injection h2 with h3
      exact hne2 h3.symm
  exact ⟨fun hp => ⟨hwr _ hp, hnte _ (by decide) (by decide) hp⟩,
         fun hp => ⟨hwr _ hp, hnte _ (by decide) (by decide) hp⟩,
         fun hp => ⟨hwr _ hp, hnte _ (by decide) (by decide) hp⟩⟩

/-- Witness for C4: the record of job 1 is deleted while job 1 still waits
for the gate; the task then writes nothing and publishes no terminal
event. -/
theorem stale_record_no_writes_no_terminal_event_witness :
    u3.writes_by 1 = [] ∧ no_terminal_event u3.events 1 :=
  (stale_record_no_writes_no_terminal_event allQueuedStore allQueuedStore_no_processing
    u3 reach_u3 1).1 (by decide)

/-- C4 counterexample: on the failure path with the record deleted the task
ends in outcome crashedNoRecord — the NoResultFound exception raised by the
.one() re-fetch escaping the coroutine — not one of the two benign silent
returns, refuting the clause that a deleted record always aborts the
pipeline without error. -/
theorem stale_record_failure_path_crashes :
    Reachable t0 v5 ∧ v5.phase 1 = Phase.done Outcome.crashedNoRecord ∧
    Outcome.crashedNoRecord ≠ Outcome.deletedBeforeProcessing ∧
    Outcome.crashedNoRecord ≠ Outcome.resultDiscarded :=
  ⟨reach_v5, by decide, by decide, by decide⟩

/-- C5: on every execution path — completion, engine failure, cooperative
abort, record deletion, including the exception raised while persisting the
terminal state of a deleted record — a finished task no longer holds the
gate, is not parked on it, and its cancellation token has been removed from
active_jobs. -/
theorem cleanup_releases_gate_and_token (store0 : JobId → Option JobStatus)
    (h0 : ∀ id, store0 id ≠ some JobStatus.processing)
    (s : SchedulerState) (hr : Reachable (initState store0) s)
    (job_id : JobId) (o : Outcome) (hd : s.phase job_id = Phase.done o) :
    s.gpu_lock_holder ≠ some job_id ∧ job_id ∉ s.gpu_lock_waiters ∧
    s.active_jobs job_id = none := by
  have hinv := inv_reachable h0 hr
  refine ⟨?_, ?_, hinv.doneNoToken job_id o hd⟩
  · intro hc
    have hh := hinv.holderHolding job_id hc
    rw [hd] at hh
    simp [Phase.isHolding] at hh
  · intro hm
    have hh := hinv.waitersWaiting job_id hm
    rw [hd] at hh
    cases hh

/-- Witness for C5: after job 1 completed it holds nothing and its token is
gone. -/
theorem cleanup_releases_gate_and_token_witness :
    t6.gpu_lock_holder ≠ some 1 ∧ 1 ∉ t6.gpu_lock_waiters ∧
    t6.active_jobs 1 = none :=
  cleanup_releases_gate_and_token allQueuedStore allQueuedStore_no_processing t6
    reach_t6 1 Outcome.completed (by decide)

/-- C6 (amended): publish serializes the message once and offers it to
every channel registered at that moment with a non-blocking send; a full
channel keeps its buffer unchanged (the message is dropped for that
subscriber only) while every registered channel that is not full receives
the message; the subscriber set itself is unchanged.  The channels
subscribe creates are, however, unbounded, not bounded — see the
counterexample. -/
theorem publish_per_subscriber_drop (m : EventManagerState)
    (event_type data_json : String) (i : Nat) (c : Channel)
    (hc : m.subscribers.get? i = some c) :
    (publish event_type data_json m).subscribers.length =
      m.subscribers.length ∧
    (c.full = true →
      (publish event_type data_json m).subscribers.get? i = some c) ∧
    (c.full = false →
      (publish event_type data_json m).subscribers.get? i =
        some { c with
          buffer := c.buffer ++ [serialize_msg event_type data_json] }) := by
  unfold publish
  refine ⟨by simp, ?_, ?_⟩
  · intro hf
    rw [List.get?_map, hc]
    simp [offer, hf]
  · intro hf
    rw [List.get?_map, hc]
    simp [offer, hf]

/-- Witness for C6: with a saturated bounded channel and a free channel
subscribed, a publish drops the message only for the saturated one and the
free one receives it. -/
theorem publish_per_subscriber_drop_witness :
    (publish "job_update" "x" em6).subscribers.length = 2 ∧
    (publish "job_update" "x" em6).subscribers.get? 0 = some ch6full ∧
    (publish "job_update" "x" em6).subscribers.get? 1 =
      some { ch6free with
        buffer := ch6free.buffer ++ [serialize_msg "job_update" "x"] } :=
  ⟨((publish_per_subscriber_drop em6 "job_update" "x" 0 ch6full
      (by decide)).1).trans (by decide),
   (publish_per_subscriber_drop em6 "job_update" "x" 0 ch6full
      (by decide)).2.1 (by decide),
   (publish_per_subscriber_drop em6 "job_update" "x" 1 ch6free
      (by decide)).2.2 (by decide)⟩

/-- C6 counterexample: subscribe creates an unbounded channel —
asyncio.Queue() has maxsize 0, which full() never reports as full — so the
claim that subscribe creates and registers a bounded channel is false: even
with five undelivered messages buffered, the next offer still appends
instead of dropping. -/
theorem subscribe_channel_not_bounded :
    (subscribe { subscribers := [] }).2.maxsize = 0 ∧
    Channel.full { maxsize := 0, buffer := ["a", "b", "c", "d", "e"] } = false ∧
    (offer "m" { maxsize := 0, buffer := ["a", "b", "c", "d", "e"] }).buffer.length
      = 6 := by
  decide

/-- C7 (amended): registering a cancellation token for an id never fails;
the dictionary assignment stores a fresh unset token for the id — silently
replacing whatever token was registered before — and leaves every other id
untouched. -/
theorem register_token_replaces (m : JobId → Option Bool)
    (job_id other : JobId) (hne : other ≠ job_id) :
    register_token m job_id job_id = some false ∧
    register_token m job_id other = m other := by
  unfold register_token
  constructor
  · rw [Function.update_apply, if_pos rfl]
  · rw [Function.update_apply, if_neg hne]

/-- Witness for C7: registering over the already registered (and already
set) token of job 1 yields a fresh unset token, and job 2 is unaffected. -/
theorem register_token_replaces_witness :
    register_token preRegistered 1 1 = some false ∧
    register_token preRegistered 1 2 = preRegistered 2 :=
  register_token_replaces preRegistered 1 2 (by decide)

/-- C7 counterexample: the claim says registration fails when the id is
already registered; in the code the plain dictionary assignment succeeds
and silently replaces the previously registered, already-set token by a
fresh unset one. -/
theorem register_token_existing_id_no_failure :
    preRegistered 1 = some true ∧
    register_token preRegistered 1 1 = some false := by
  constructor
  · decide
  · decide

/-- C8: the resolved conditioning window equals style_influence percent of
the fixed 10 second reference window, clamped above by the actual audio
duration and below by the 1 second floor; it always respects both bounds
when the clip lasts at least a second, and style_influence 50 with a 20
second clip resolves to 5 seconds. -/
theorem muq_segment_sec_clamped (p d : ℚ) (hd : 1 ≤ d) :
    muq_segment_sec p d = max 1 (min (p / 100 * 10) d) ∧
    1 ≤ muq_segment_sec p d ∧ muq_segment_sec p d ≤ d ∧
    muq_segment_sec 50 20 = 5 := by
  refine ⟨rfl, le_max_left _ _, ?_, ?_⟩
  · exact max_le hd (min_le_right _ _)
  · norm_num [muq_segment_sec, max_segment_sec]

/-- Witness for C8 at the claimed scenario: influence 50, duration 20. -/
theorem muq_segment_sec_clamped_witness :
    muq_segment_sec 50 20 = max 1 (min ((50 : ℚ) / 100 * 10) 20) ∧
    1 ≤ muq_segment_sec 50 20 ∧ muq_segment_sec 50 20 ≤ 20 ∧
    muq_segment_sec 50 20 = 5 :=
  muq_segment_sec_clamped 50 20 (by norm_num)

/-- C9: the placement decision is a pure function of the capacity list.
With fewer than two GPUs it selects single mode, keeps the codec off the
GPU (on the CPU) and requests lazy loading; with two or more it puts
HeartMuLa on an index holding the greatest capacity and HeartCodec on an
index holding the least capacity. -/
theorem device_placement_policy (gpu_memories : List ℚ) :
    (gpu_memories.length < 2 →
      load_pipeline_multi_gpu gpu_memories =
        { gpu_mode := "single", device := TorchDevice.cuda,
          codec_device := TorchDevice.cpu, lazy_load := some true }) ∧
    (2 ≤ gpu_memories.length →
      load_pipeline_multi_gpu gpu_memories =
        { gpu_mode := "multi",
          device := TorchDevice.cudaIdx (py_max_key gpu_memories),
          codec_device := TorchDevice.cudaIdx (py_min_key gpu_memories),
          lazy_load := none } ∧
      (∃ v, gpu_memories.get? (py_max_key gpu_memories) = some v ∧
        ∀ y ∈ gpu_memories, y ≤ v) ∧
      (∃ v, gpu_memories.get? (py_min_key gpu_memories) = some v ∧
        ∀ y ∈ gpu_memories, v ≤ y)) := by
  constructor
  · intro hlt
    unfold load_pipeline_multi_gpu
    rw [if_pos hlt]
  · intro hge
    have hne : gpu_memories ≠ [] := by
      intro hnil
      rw [hnil] at hge
      simp at hge
    refine ⟨?_, py_max_key_spec _ hne, py_min_key_spec _ hne⟩
    unfold load_pipeline_multi_gpu
    rw [if_neg (by omega)]

/-- Witness for C9: one GPU of 12 GB picks single mode with the codec kept
away from the GPU; GPUs of 8, 24 and 16 GB put HeartMuLa on the 24 GB index
and HeartCodec on the 8 GB index. -/
theorem device_placement_policy_witness :
    load_pipeline_multi_gpu [12] =
      { gpu_mode := "single", device := TorchDevice.cuda,
        codec_device := TorchDevice.cpu, lazy_load := some true } ∧
    load_pipeline_multi_gpu [8, 24, 16] =
      { gpu_mode := "multi",
        device := TorchDevice.cudaIdx (py_max_key [8, 24, 16]),
        codec_device := TorchDevice.cudaIdx (py_min_key [8, 24, 16]),
        lazy_load := none } :=
  ⟨(device_placement_policy [12]).1 (by decide),
   ((device_placement_policy [8, 24, 16]).2 (by decide)).1⟩

/-- C10: channels created by subscribe have maxsize 0, the asyncio marker
for unlimited capacity; such a channel is never full, so the QueueFull drop
branch of publish (and of the shutdown broadcast) is unreachable for them,
and every published message is appended to every subscribed channel no
matter how much is already buffered. -/
theorem subscriber_channels_unbounded_no_drop (m0 m : EventManagerState)
    (event_type data_json : String) (i : Nat) (c : Channel)
    (hc : m.subscribers.get? i = some c) (hz : c.maxsize = 0) :
    (subscribe m0).2.maxsize = 0 ∧
    (subscribe m0).1.subscribers.get? m0.subscribers.length =
      some { maxsize := 0, buffer := [] } ∧
    c.full = false ∧
    (publish event_type data_json m).subscribers.get? i =
      some { c with buffer := c.buffer ++ [serialize_msg event_type data_json] } ∧
    (shutdown_broadcast m).subscribers.get? i =
      some { c with buffer := c.buffer ++ ["event: shutdown\ndata: \x7b\x7d\n\n"] } := by
  have hnf : c.full = false := by
    unfold Channel.full
    rw [hz]
    simp
  refine ⟨rfl, ?_, hnf, ?_, ?_⟩
  · unfold subscribe
    simp [List.get?_concat_length]
  · unfold publish
    rw [List.get?_map, hc]
    simp [offer, hnf]
  · unfold shutdown_broadcast
    rw [List.get?_map, hc]
    simp [offer, hnf]

/-- Witness for C10: an unbounded subscribed channel is not full and a
publish appends the serialized message to its buffer. -/
theorem subscriber_channels_unbounded_no_drop_witness :
    ch6free.full = false ∧
    (publish "job_progress" "p" { subscribers := [ch6free] }).subscribers.get? 0 =
      some { ch6free with
        buffer := ch6free.buffer ++ [serialize_msg "job_progress" "p"] } :=
  ⟨(subscriber_channels_unbounded_no_drop { subscribers := [] }
      { subscribers := [ch6free] } "job_progress" "p" 0 ch6free
      (by decide) (by decide)).2.2.1,
   (subscriber_channels_unbounded_no_drop { subscribers := [] }
      { subscribers := [ch6free] } "job_progress" "p" 0 ch6free
      (by decide) (by decide)).2.2.2.1⟩

end CTFN
